import Mathlib

/-!
Verification of the alkatto orchestration layer: a shallow embedding of
the graph definitions, routing selectors and node boundary functions of
the repository, with theorems settling the specified properties.
-/

namespace Alkatto

/- ### Analyst graph routing (src/agent/analyst_graph/graph.py) -/

/-- String constant END used as a terminal marker label by the graph
library; routing selectors may return it instead of a node name. -/
def ENDlabel : String := "__end__"

/-- ASCII lowercase of a single character, the per-character behaviour of
the Python `str.lower` used by the routing selector. -/
def lowerChar (c : Char) : Char :=
  if c.toNat ≥ 65 ∧ c.toNat ≤ 90 then Char.ofNat (c.toNat + 32) else c

/-- ASCII lowercase of a string, embedding Python `str.lower` on the
ASCII feedback tokens the selector compares. -/
def lowerStr (s : String) : String := String.mk (s.data.map lowerChar)

/-- Embedding of `initiate_all_interviews` (analyst_graph/graph.py lines
68-79).  The state field `human_analyst_feedback` may be absent, in which
case the source substitutes the literal default `"appove"` (line 73).
The selector returns `"create_analysts"` when the lowercased feedback is
not the token `"approve"`, and END otherwise. -/
def initiate_all_interviews (human_analyst_feedback : Option String) : String :=
  let f := human_analyst_feedback.getD "appove"
  if lowerStr f ≠ "approve" then "create_analysts" else ENDlabel

/- ### Confidence score (src/agent/interview_graph/utils.py) -/

/-- Rounding to 3 decimal places, as `round(avg_score, 3)` does on the
numeric value: multiply by 1000, round to the nearest integer, divide. -/
def round3 (x : ℚ) : ℚ := (round (x * 1000) : ℤ) / 1000

/-- Embedding of `calculate_confidence_score` (utils.py lines 12-21):
`0.0` for an empty list, otherwise the arithmetic mean of the scores
rounded to 3 decimal places. -/
def calculate_confidence_score (confidence_scores : List ℚ) : ℚ :=
  if confidence_scores = [] then 0
  else round3 (confidence_scores.sum / confidence_scores.length)

/- ### Wave-based execution engine -/

/-- Modelled from the spec: the orchestration engine executes a graph in
topological waves (spec section 4.1).  The engine itself is supplied by
the graph library and is not under src, so its wave and join semantics
are taken from the spec; the individual graphs below are embedded from
the source.  A graph holds its nodes in declared order, its plain
directed edges, and its entry points. -/
structure GraphDef where
  nodes : List String
  edges : List (String × String)
  entries : List String

/-- Predecessors of a node along the plain edges. -/
def GraphDef.preds (g : GraphDef) (n : String) : List String :=
  (g.edges.filter (fun e => e.2 = n)).map (fun e => e.1)

/-- Modelled from the spec: a node is eligible for the next wave once
some predecessor ran in the current wave and all of its predecessors
have produced output; a join node must not run partially (spec section
4.1). -/
def nextWave (g : GraphDef) (executed wave : List String) : List String :=
  g.nodes.filter (fun n =>
    !(executed.contains n || wave.contains n) &&
    wave.any (fun p => g.edges.contains (p, n)) &&
    (g.preds n).all (fun p => executed.contains p || wave.contains p))

/-- Modelled from the spec: the successive execution waves of a graph
from a given executed set and current wave, bounded by fuel. -/
def wavesFrom (g : GraphDef) : Nat → List String → List String → List (List String)
  | 0, _, _ => []
  | fuel + 1, executed, wave =>
    if wave.isEmpty then []
    else wave :: wavesFrom g fuel (executed ++ wave) (nextWave g executed wave)

/-- Execution waves of a graph starting from its entry points. -/
def GraphDef.waves (g : GraphDef) (fuel : Nat) : List (List String) :=
  wavesFrom g fuel [] g.entries

/- ### Financial graph (src/agent/interview_graph/financial/graph.py) -/

/-- Embedding of the financial graph construction
(financial/graph.py lines 213-232): five nodes in declared order, four
plain edges from the analysis nodes into the synthesis node
`write_article`, and the four analysis nodes as entry points. -/
def financial_graph : GraphDef :=
  { nodes := ["analyze_stock_data", "analyze_market_sentiment",
              "analyze_technical_indicators", "generate_price_targets",
              "write_article"]
    edges := [("analyze_stock_data", "write_article"),
              ("analyze_market_sentiment", "write_article"),
              ("analyze_technical_indicators", "write_article"),
              ("generate_price_targets", "write_article")]
    entries := ["analyze_stock_data", "analyze_market_sentiment",
                "analyze_technical_indicators", "generate_price_targets"] }

/-- Wave trace of the financial graph, with fuel equal to its node
count (an acyclic graph terminates in at most that many waves). -/
def financialWaves : List (List String) := financial_graph.waves 5

/-- State of the financial pipeline (financial/state.py lines 37-43):
the message history plus one optional slot per analysis field, where
`none` models the empty-dict default that no node has written yet. -/
structure FinState (α : Type) where
  messages : List α
  stock_data : Option α
  market_sentiment : Option α
  technical_analysis : Option α
  price_targets : Option α

/-- One wave of the financial run: every member node reads the pre-wave
snapshot and writes its own disjoint field, and the merged state becomes
visible only after the whole wave (spec sections 4.4 and 5).  The
contribution functions stand for the node bodies
(financial/graph.py lines 51-189): each analysis node returns exactly
one field, and `write_article` appends its article to the message
history (line 189). -/
def applyFinWave {α : Type} (f_s f_m f_t f_p f_w : FinState α → α)
    (pre : FinState α) (wave : List String) : FinState α :=
  wave.foldl (fun acc n =>
    if n = "analyze_stock_data" then
      { acc with stock_data := some (f_s pre) }
    else if n = "analyze_market_sentiment" then
      { acc with market_sentiment := some (f_m pre) }
    else if n = "analyze_technical_indicators" then
      { acc with technical_analysis := some (f_t pre) }
    else if n = "generate_price_targets" then
      { acc with price_targets := some (f_p pre) }
    else if n = "write_article" then
      { acc with messages := acc.messages ++ [f_w pre] }
    else acc) pre

/- ### Interview graph fan-out merge (src/agent/interview_graph/graph.py,
state.py) -/

/-- Interview state restricted to what the search wave touches:
`context` is the append-policy field (state.py line 48, operator.add);
`rest` abstracts the remaining fields the search nodes may read. -/
structure IvState (δ ρ : Type) where
  context : List δ
  rest : ρ

/-- Contributions of the two parallel search nodes tagged with their
graph-declared index: `search_web` is declared before `search_wikipedia`
(graph.py lines 163-164 for the nodes and 171-172 for the fan-out
edges), so it carries index 0 and `search_wikipedia` index 1.  Both read
the same pre-wave snapshot. -/
def searchWaveDeclared {δ ρ : Type} (cWeb cWiki : IvState δ ρ → List δ)
    (s : IvState δ ρ) : List (Nat × List δ) :=
  [(0, cWeb s), (1, cWiki s)]

/-- Modelled from the spec: the engine that merges a fan-out wave is
supplied by the graph library and is not under src; per the spec
(section 3 invariant) append-field writes are applied in graph-declared
node order, whatever the completion order in which the tagged
contributions arrive. -/
def mergeAppendByDeclared {δ : Type} (numMembers : Nat)
    (contribs : List (Nat × List δ)) : List δ :=
  ((List.range numMembers).map (fun i =>
    ((contribs.filter (fun c => c.1 == i)).map Prod.snd).flatten)).flatten

/-- Modelled from the spec: one run of the search wave of the interview
graph; the contributions arrive in an arbitrary completion order
`arrival` and are merged onto the append field `context`. -/
def runSearchWave {δ ρ : Type} (s : IvState δ ρ)
    (arrival : List (Nat × List δ)) : IvState δ ρ :=
  { s with context := s.context ++ mergeAppendByDeclared 2 arrival }

/- ### Market graph and its quality-gate cycle
(src/agent/interview_graph/market/graph.py) -/

/-- Market state restricted to what the quality gate reads: the
`approved` flag under `analysis.quality_control`, absent until the
check_quality node stores a verdict (market/graph.py lines 131-135). -/
structure MarketCtrlState where
  quality_approved : Option Bool

/-- Embedding of `needs_revision` (market/graph.py lines 138-145):
`end` when `analysis.quality_control.approved` holds with default
False, else `revise_report`. -/
def needs_revision (s : MarketCtrlState) : String :=
  if s.quality_approved.getD false then "end" else "revise_report"

/-- Embedding of the market graph construction (market/graph.py lines
149-173): four nodes, three plain chain edges, entry at
`analyze_trends`. -/
def market_graph : GraphDef :=
  { nodes := ["analyze_trends", "analyze_sentiment", "write_report",
              "check_quality"]
    edges := [("analyze_trends", "analyze_sentiment"),
              ("analyze_sentiment", "write_report"),
              ("write_report", "check_quality")]
    entries := ["analyze_trends"] }

/-- Successor of a node of the market graph: the plain edges
(market/graph.py lines 158-160) and, at check_quality, the conditional
edge mapping `revise_report` to `write_report` and `end` to END
(lines 163-170); `none` is END. -/
def marketNext (s : MarketCtrlState) (node : String) : Option String :=
  if node = "analyze_trends" then some "analyze_sentiment"
  else if node = "analyze_sentiment" then some "write_report"
  else if node = "write_report" then some "check_quality"
  else if node = "check_quality" then
    (if needs_revision s = "end" then none else some "write_report")
  else none

/-- Run-level faults of the engine (spec section 7). -/
inductive Fault where
  | cycleBudgetExceeded
deriving DecidableEq

/-- Modelled from the spec: the engine enforces an execution budget of
node visits and raises CycleBudgetExceeded instead of looping (spec
sections 4.1 and 8); the budget mechanism lives in the graph library,
not under src.  The function `qc` gives the verdict the check_quality
node stores at its k-th visit; the counter k tracks those visits. -/
def runMarket (qc : Nat → Option Bool) :
    Nat → Nat → String → Except Fault Unit
  | 0, _, _ => Except.error Fault.cycleBudgetExceeded
  | fuel + 1, k, node =>
    match marketNext ⟨qc k⟩ node with
    | none => Except.ok ()
    | some n =>
        runMarket qc fuel (if node = "check_quality" then k + 1 else k) n

/- ### General graph and its relevancy loop
(src/agent/interview_graph/general/graph.py) -/

/-- Embedding of `needs_new_search` (general/graph.py lines 105-112):
`analyze_results` when `analysis.relevancy_check.relevant` holds with
default False, else `search_web`. -/
def needs_new_search (relevant : Option Bool) : String :=
  if relevant.getD false then "analyze_results" else "search_web"

/-- Embedding of the general graph construction (general/graph.py lines
222-252): five nodes, the plain edges of lines 232-237 and 249 (note
line 236 adds a plain edge from check_relevancy to analyze_results),
entry at search_web. -/
def general_graph : GraphDef :=
  { nodes := ["search_web", "combine_results", "check_relevancy",
              "analyze_results", "write_article"]
    edges := [("search_web", "combine_results"),
              ("combine_results", "check_relevancy"),
              ("check_relevancy", "analyze_results"),
              ("analyze_results", "write_article"),
              ("write_article", ENDlabel)]
    entries := ["search_web"] }

/-- Successors of a node of the general graph: the plain edges plus, at
check_relevancy, the target the conditional edge mapping
(general/graph.py lines 240-247) selects through needs_new_search. -/
def generalSuccessors (relevant : Option Bool) (node : String) :
    List String :=
  (general_graph.edges.filter (fun e => e.1 = node)).map (fun e => e.2) ++
  (if node = "check_relevancy" then [needs_new_search relevant] else [])

/-- State read by the search_web node of the general graph: the message
contents and the suggestions stored by the relevancy check. -/
structure GeneralQState where
  messages : List String
  suggestions : List String

/-- Embedding of the query search_web sends to the retriever
(general/graph.py lines 15-29): the content of the last message, empty
when there are no messages; the suggestions field is not consulted. -/
def searchWebQuery (s : GeneralQState) : String :=
  (s.messages.getLast?).getD ""

/- ### Node-boundary handling of malformed structured replies -/

/-- Node-level error raised by a failing parse of a backend reply. -/
inductive NodeError where
  | jsonDecodeError
deriving DecidableEq

/-- Relevancy verdict shape requested by check_relevancy
(general/graph.py lines 80-85). -/
structure RelevancyEval where
  relevant : Bool
  reason : String
  suggestions : List String
deriving DecidableEq

/-- Quality verdict shape requested by check_research_quality
(market/graph.py lines 127-135). -/
structure QualityEval where
  approved : Bool
deriving DecidableEq

/-- Analysis shape requested by analyze_search_results
(general/graph.py lines 146-154). -/
structure AnalysisResult where
  key_themes : List String
  facts : List String
  conflicts : List String
  source_reliability : List (String × ℚ)
  information_gaps : List String
  analysis_summary : String
deriving DecidableEq

/-- Embedding of the parse step of check_relevancy (general/graph.py
line 96): json.loads of the reply with no enclosing handler, so a
malformed reply (parse outcome `none`) escapes the node as an error
instead of becoming a state contribution. -/
def check_relevancy (parsed : Option RelevancyEval) :
    Except NodeError RelevancyEval :=
  match parsed with
  | none => Except.error NodeError.jsonDecodeError
  | some e => Except.ok e

/-- Embedding of the parse step of check_research_quality
(market/graph.py line 128): json.loads with no enclosing handler. -/
def check_research_quality (parsed : Option QualityEval) :
    Except NodeError QualityEval :=
  match parsed with
  | none => Except.error NodeError.jsonDecodeError
  | some e => Except.ok e

/-- Fallback analysis substituted by the except branch of
analyze_search_results (general/graph.py lines 164-171): empty
components with the raw reply as the summary. -/
def fallbackAnalysis (rawContent : String) : AnalysisResult :=
  { key_themes := [], facts := [], conflicts := [],
    source_reliability := [], information_gaps := [],
    analysis_summary := rawContent }

/-- Embedding of the parse step of analyze_search_results
(general/graph.py lines 161-173): json.loads inside a try block whose
except branch substitutes the fallback result, so the node always
returns a state contribution. -/
def analyze_search_results (parsed : Option AnalysisResult)
    (rawContent : String) : Except NodeError AnalysisResult :=
  match parsed with
  | some r => Except.ok r
  | none => Except.ok (fallbackAnalysis rawContent)

/- ### Dispatch router (spec section 4.2; prompt in
src/agent/interview_graph/prompts.py lines 12-20) -/

/-- Closed taxonomy of dispatch labels fixed by the classification
prompt (prompts.py lines 12-20). -/
def dispatchTaxonomy : List String :=
  ["financial_question", "general_question"]

/-- Modelled from the spec: the top-level dispatch router is not under
src (only its classification prompt and the sub-pipeline handlers are);
per spec section 4.2 it classifies the question against the closed
taxonomy and falls back to the general label deterministically when the
backend reply matches no label. -/
def dispatchRoute (reply : String) : String :=
  if reply ∈ dispatchTaxonomy then reply else "general_question"

/- ### Interview message routing (src/agent/interview_graph/graph.py) -/

/-- Conversation message: whether it is an AIMessage, its optional
display name, and its text content. -/
structure Msg where
  isAI : Bool
  name : Option String
  content : String
deriving DecidableEq

/-- Boolean test that one character list is a prefix of another. -/
def listHasPrefix : List Char → List Char → Bool
  | [], _ => true
  | _ :: _, [] => false
  | a :: as, b :: bs => a == b && listHasPrefix as bs

/-- Boolean test that the needle occurs inside the haystack. -/
def listContainsSub (needle : List Char) : List Char → Bool
  | [] => needle.isEmpty
  | c :: t => listHasPrefix needle (c :: t) || listContainsSub needle t

/-- Embedding of the Python `in` substring test on strings. -/
def containsSubstr (haystack needle : String) : Bool :=
  listContainsSub needle.data haystack.data

/-- Termination phrase route_messages looks for (graph.py line 135). -/
def thanksPhrase : String := "Thank you so much for your help"

/-- Number of AIMessages named expert in the history (graph.py lines
123-125). -/
def expertCount (messages : List Msg) : Nat :=
  (messages.filter (fun m => m.isAI && m.name == some "expert")).length

/-- Embedding of `route_messages` (graph.py lines 113-137): end the
interview once the expert has answered max_num_turns times (default 2
when the field is absent, line 120) or the second-to-last message
contains the termination phrase; `none` models the IndexError that
messages[-2] raises on a history shorter than 2. -/
def route_messages (messages : List Msg) (max_num_turns : Option Nat) :
    Option String :=
  let maxT := max_num_turns.getD 2
  if expertCount messages ≥ maxT then some "save_interview"
  else
    if h : 2 ≤ messages.length then
      let last_question := messages.get ⟨messages.length - 2, by omega⟩
      some (if containsSubstr last_question.content thanksPhrase then
        "save_interview" else "ask_question")
    else none

/-- One turn of the interview question-answer cycle (graph.py lines
170-175): generate_question appends an unnamed AIMessage, the searches
run, and generate_answer appends an AIMessage named expert (line 89).
The generators stand for the backend calls. -/
def qaStep (qgen agen : List Msg → String) (msgs : List Msg) : List Msg :=
  let msgs1 := msgs ++ [⟨true, none, qgen msgs⟩]
  msgs1 ++ [⟨true, some "expert", agen msgs1⟩]

/-- Number of times the answer node executes along the interview cycle
(graph.py line 175 conditional edge): each iteration runs the answer
node once, then route_messages decides whether to loop back to
ask_question; any other outcome (save_interview, or the IndexError
case) leaves the cycle. -/
def qaLoop (qgen agen : List Msg → String) (maxT : Option Nat) :
    Nat → List Msg → Nat
  | 0, _ => 0
  | fuel + 1, msgs =>
    let msgs2 := qaStep qgen agen msgs
    match route_messages msgs2 maxT with
    | some s =>
        if s = "ask_question" then 1 + qaLoop qgen agen maxT fuel msgs2
        else 1
    | none => 1

/- ### Sub-pipeline boundary wrappers -/

/-- State of the general pipeline as handle_general_question builds it
(general/graph.py lines 209-213): messages, empty context, empty
analysis. -/
structure GenState (α : Type) where
  messages : List α
  context : List α
  analysis : Option α

/-- Partial state update returned across a sub-pipeline boundary: one
optional slot per field of the enclosing state; `none` models a key
absent from the returned mapping. -/
structure BoundaryUpdate (μ π : Type) where
  messages : Option μ
  stock_data : Option π
  market_sentiment : Option π
  technical_analysis : Option π
  price_targets : Option π
  web_results : Option π
  wiki_results : Option π
  context : Option π
  analysis : Option π

/-- Embedding of `handle_financial_question` (financial/graph.py lines
193-209): build a fresh financial state from the incoming messages with
empty analysis fields, invoke the compiled financial graph (the invoke
argument), and return a mapping holding only the messages key. -/
def handle_financial_question {α π : Type}
    (invokeFin : FinState α → FinState α) (messages : List α) :
    BoundaryUpdate (List α) π :=
  let financial_state : FinState α :=
    { messages := messages, stock_data := none, market_sentiment := none,
      technical_analysis := none, price_targets := none }
  let result := invokeFin financial_state
  { messages := some result.messages,
    stock_data := none, market_sentiment := none,
    technical_analysis := none, price_targets := none,
    web_results := none, wiki_results := none,
    context := none, analysis := none }

/-- Embedding of `handle_general_question` (general/graph.py lines
206-219): build a fresh general state from the incoming messages with
empty context and analysis, invoke the compiled general graph, and
return a mapping holding only the messages key. -/
def handle_general_question {α π : Type}
    (invokeGen : GenState α → GenState α) (messages : List α) :
    BoundaryUpdate (List α) π :=
  let general_state : GenState α :=
    { messages := messages, context := [], analysis := none }
  let result := invokeGen general_state
  { messages := some result.messages,
    stock_data := none, market_sentiment := none,
    technical_analysis := none, price_targets := none,
    web_results := none, wiki_results := none,
    context := none, analysis := none }

end Alkatto

namespace Alkatto

/- ### Theorems for the analyst graph routing -/

/-- C4 counterexample: the substituted default sentinel is not the
approve token.  A state with the feedback field absent routes to
`create_analysts`, while a state holding the token `approve` routes to
END; were the default sentinel the approve token, the two would route
identically. -/
theorem C4_default_sentinel_not_approve :
    initiate_all_interviews none = "create_analysts" ∧
    initiate_all_interviews (some "approve") = ENDlabel ∧
    initiate_all_interviews none ≠ initiate_all_interviews (some "approve") := by
  refine ⟨?_, ?_, ?_⟩ <;> decide

/-- C4 amended: `initiate_all_interviews` returns END exactly when the
feedback is present and its lowercasing equals `approve`; any other
present feedback, and also the absent case, routes back to
`create_analysts`, because the substituted default sentinel is the
misspelled literal `appove`, which fails the approve comparison. -/
theorem C4_routing (f : Option String) :
    (initiate_all_interviews f = ENDlabel ↔
      ∃ s, f = some s ∧ lowerStr s = "approve") ∧
    (f = none → initiate_all_interviews f = "create_analysts") := by
  constructor
  · cases f with
    | none =>
        simp only [initiate_all_interviews, Option.getD]
        constructor
        · intro h
          exact absurd h (by decide)
        · rintro ⟨s, hs, _⟩
          exact absurd hs (by simp)
    | some s =>
        simp only [initiate_all_interviews, Option.getD]
        by_cases h : lowerStr s = "approve"
        · simp [h, ENDlabel]
        · constructor
          · intro hEnd
            rw [if_pos h] at hEnd
            exact absurd hEnd (by decide)
          · rintro ⟨t, ht, hlow⟩
            cases Option.some.inj ht
            exact absurd hlow h
  · intro hf
    subst hf
    decide

/- ### Theorems for the confidence score -/

/-- Rounding to 3 decimal places moves a rational by at most 1/2000. -/
lemma round3_bounds (x : ℚ) : x - 1/2000 ≤ round3 x ∧ round3 x ≤ x + 1/2000 := by
  have h := abs_sub_round (x * 1000)
  rw [abs_le] at h
  have hr : round3 x = ((round (x * 1000) : ℤ) : ℚ) / 1000 := rfl
  constructor <;> (rw [hr]; linarith [h.1, h.2])

/-- Sum of a list is at most the length times an upper bound. -/
lemma sum_le_len_mul (l : List ℚ) (b : ℚ) (h : ∀ x ∈ l, x ≤ b) :
    l.sum ≤ l.length * b := by
  induction l with
  | nil => simp
  | cons x xs ih =>
      have hx := h x (by simp)
      have hxs := ih (fun y hy => h y (by simp [hy]))
      simp only [List.sum_cons, List.length_cons]
      push_cast
      linarith

/-- Sum of a list is at least the length times a lower bound. -/
lemma len_mul_le_sum (l : List ℚ) (a : ℚ) (h : ∀ x ∈ l, a ≤ x) :
    l.length * a ≤ l.sum := by
  induction l with
  | nil => simp
  | cons x xs ih =>
      have hx := h x (by simp)
      have hxs := ih (fun y hy => h y (by simp [hy]))
      simp only [List.sum_cons, List.length_cons]
      push_cast
      linarith

/-- C10 counterexample: for the singleton input `[1/2500]` (the value
0.0004) the mean is 1/2500 but the rounded result is 0, which lies
strictly below the minimum (and maximum) of the input scores. -/
theorem C10_rounding_escapes_range :
    calculate_confidence_score [(1 : ℚ)/2500] = 0 ∧
    ¬ ((1 : ℚ)/2500 ≤ calculate_confidence_score [(1 : ℚ)/2500]) := by
  have h : calculate_confidence_score [(1 : ℚ)/2500] = 0 := by
    have h1 : ((1 : ℚ)/2500) * 1000 = 2/5 := by norm_num
    simp only [calculate_confidence_score, round3, List.sum_cons, List.sum_nil,
      List.length_cons, List.length_nil]
    norm_num [h1, round_eq]
  refine ⟨h, ?_⟩
  rw [h]
  norm_num

/-- C10 amended: `calculate_confidence_score` returns 0 on the empty
list; on a nonempty list it returns the arithmetic mean rounded to 3
decimal places, hence it lies between the minimum and the maximum of the
scores each relaxed by the rounding error 1/2000. -/
theorem C10_confidence_score_bounds (scores : List ℚ) (a b : ℚ)
    (hne : scores ≠ []) (hab : ∀ x ∈ scores, a ≤ x ∧ x ≤ b) :
    calculate_confidence_score [] = 0 ∧
    calculate_confidence_score scores = round3 (scores.sum / scores.length) ∧
    a - 1/2000 ≤ calculate_confidence_score scores ∧
    calculate_confidence_score scores ≤ b + 1/2000 := by
  have hlen : (0 : ℚ) < scores.length := by
    have : 0 < scores.length := List.length_pos.mpr hne
    exact_mod_cast this
  have hmean_lo : a ≤ scores.sum / scores.length := by
    rw [le_div_iff₀ hlen]
    have := len_mul_le_sum scores a (fun x hx => (hab x hx).1)
    linarith
  have hmean_hi : scores.sum / scores.length ≤ b := by
    rw [div_le_iff₀ hlen]
    have := sum_le_len_mul scores b (fun x hx => (hab x hx).2)
    linarith
  have hval : calculate_confidence_score scores
      = round3 (scores.sum / scores.length) := by
    simp [calculate_confidence_score, hne]
  have hr := round3_bounds (scores.sum / scores.length)
  refine ⟨by simp [calculate_confidence_score], hval, ?_, ?_⟩ <;>
    rw [hval] <;> linarith [hr.1, hr.2]

/-- C10 witness: concrete evaluation of the score bounds on the
singleton list containing 1. -/
theorem C10_confidence_score_bounds_witness :
    calculate_confidence_score [] = 0 ∧
    calculate_confidence_score [(1 : ℚ)] = round3 ([(1 : ℚ)].sum / [(1 : ℚ)].length) ∧
    (1 : ℚ) - 1/2000 ≤ calculate_confidence_score [(1 : ℚ)] ∧
    calculate_confidence_score [(1 : ℚ)] ≤ 1 + 1/2000 :=
  C10_confidence_score_bounds [(1 : ℚ)] 1 1 (by decide) (by
    intro x hx
    simp only [List.mem_singleton] at hx
    simp [hx])

/-- C4 witness: concrete evaluation of the amended routing rule at the
absent-feedback state. -/
theorem C4_routing_witness :
    initiate_all_interviews none = "create_analysts" :=
  (C4_routing none).2 rfl

/- ### Theorems for the financial fan-out join -/

/-- C1: in every run of the financial graph the wave trace is the
analysis wave followed by the synthesis wave, so `write_article`
executes exactly once and only in the wave after all four analysis
nodes; moreover the state it reads carries the contribution of every
one of the four fan-out nodes, never a partial set. -/
theorem C1_financial_synthesis_join {α : Type}
    (f_s f_m f_t f_p f_w : FinState α → α) (init : FinState α) :
    financialWaves =
      [["analyze_stock_data", "analyze_market_sentiment",
        "analyze_technical_indicators", "generate_price_targets"],
       ["write_article"]] ∧
    financialWaves.flatten.count "write_article" = 1 ∧
    (let s1 := applyFinWave f_s f_m f_t f_p f_w init
        ["analyze_stock_data", "analyze_market_sentiment",
         "analyze_technical_indicators", "generate_price_targets"]
     s1.stock_data = some (f_s init) ∧
     s1.market_sentiment = some (f_m init) ∧
     s1.technical_analysis = some (f_t init) ∧
     s1.price_targets = some (f_p init)) :=
  ⟨rfl, rfl, rfl, rfl, rfl, rfl⟩

/- ### Theorems for the interview fan-out merge -/

/-- Permutation of a two-element list is one of its two arrangements. -/
lemma perm_two {α : Type} {a b : α} {l : List α} (h : l.Perm [a, b]) :
    l = [a, b] ∨ l = [b, a] := by
  have hlen : l.length = 2 := by simpa using h.length_eq
  obtain ⟨x, y, rfl⟩ : ∃ x y, l = [x, y] := by
    match l, hlen with
    | [x, y], _ => exact ⟨x, y, rfl⟩
  have hx : x ∈ [a, b] := h.subset (by simp)
  rcases List.mem_pair.mp hx with rfl | rfl
  · left
    have h1 : [y].Perm [b] := h.cons_inv
    rw [List.perm_singleton.mp h1]
  · right
    have h2 : [x, y].Perm [x, a] := h.trans (List.Perm.swap x a [])
    have h1 : [y].Perm [a] := h2.cons_inv
    rw [List.perm_singleton.mp h1]

/-- Merging a permutation of the two tagged search contributions by
declared index always yields web before wikipedia. -/
lemma mergeAppendByDeclared_perm {δ : Type} {w k : List δ}
    {arrival : List (Nat × List δ)}
    (h : arrival.Perm [(0, w), (1, k)]) :
    mergeAppendByDeclared 2 arrival = w ++ k := by
  rcases perm_two h with rfl | rfl <;>
    simp [mergeAppendByDeclared, List.range_succ]

/-- C2: for every pre-wave state and deterministic search contribution
functions, any two completion orders of the interview search wave merge
to the same `context`, and that order is the graph-declared node order:
the search_web contribution precedes the search_wikipedia one. -/
theorem C2_append_order_deterministic {δ ρ : Type}
    (cWeb cWiki : IvState δ ρ → List δ) (s : IvState δ ρ)
    (arrival arrival' : List (Nat × List δ))
    (h : arrival.Perm (searchWaveDeclared cWeb cWiki s))
    (h' : arrival'.Perm (searchWaveDeclared cWeb cWiki s)) :
    runSearchWave s arrival = runSearchWave s arrival' ∧
    (runSearchWave s arrival).context = s.context ++ cWeb s ++ cWiki s := by
  have e1 := mergeAppendByDeclared_perm (δ := δ) h
  have e2 := mergeAppendByDeclared_perm (δ := δ) h'
  constructor
  · simp [runSearchWave, e1, e2]
  · simp [runSearchWave, e1]

/-- C2 witness: concrete search wave merged from the swapped completion
order agrees with the declared order merge. -/
theorem C2_append_order_deterministic_witness :
    runSearchWave (⟨[], ()⟩ : IvState ℕ Unit) [(1, [2]), (0, [1])]
      = runSearchWave (⟨[], ()⟩ : IvState ℕ Unit) [(0, [1]), (1, [2])] ∧
    (runSearchWave (⟨[], ()⟩ : IvState ℕ Unit) [(1, [2]), (0, [1])]).context
      = [] ++ [1] ++ [2] :=
  C2_append_order_deterministic (fun _ => [1]) (fun _ => [2]) ⟨[], ()⟩
    [(1, [2]), (0, [1])] [(0, [1]), (1, [2])] (by decide) (by decide)

/- ### Theorems for the market quality-gate cycle -/

/-- C3: with an adversarial quality verdict that makes needs_revision
return revise_report on every visit, the cyclic market run exhausts any
execution budget and yields the CycleBudgetExceeded fault from every
node of the graph; the run function is total, so it can neither loop
forever nor hang. -/
theorem C3_cycle_budget_exceeded (qc : Nat → Option Bool)
    (hadv : ∀ k, needs_revision ⟨qc k⟩ = "revise_report") :
    ∀ fuel k node, node ∈ market_graph.nodes →
      runMarket qc fuel k node = Except.error Fault.cycleBudgetExceeded := by
  intro fuel
  induction fuel with
  | zero => intro k node _; rfl
  | succ n ih =>
      intro k node hnode
      have hne : needs_revision ⟨qc k⟩ ≠ "end" := by
        rw [hadv k]; decide
      simp only [market_graph, List.mem_cons, List.not_mem_nil, or_false]
        at hnode
      rcases hnode with rfl | rfl | rfl | rfl
      · show runMarket qc n k "analyze_sentiment" = _
        exact ih k "analyze_sentiment" (by simp [market_graph])
      · show runMarket qc n k "write_report" = _
        exact ih k "write_report" (by simp [market_graph])
      · show runMarket qc n k "check_quality" = _
        exact ih k "check_quality" (by simp [market_graph])
      · show runMarket qc (n + 1) k "check_quality" = _
        simp only [runMarket, marketNext, if_neg hne]
        simp only [reduceIte]
        exact ih (k + 1) "write_report" (by simp [market_graph])

/-- C3 witness: the adversarial run with the example budget of 10 from
the entry node yields the CycleBudgetExceeded fault. -/
theorem C3_cycle_budget_exceeded_witness :
    runMarket (fun _ => some false) 10 0 "analyze_trends"
      = Except.error Fault.cycleBudgetExceeded :=
  C3_cycle_budget_exceeded (fun _ => some false) (fun _ => rfl)
    10 0 "analyze_trends" (by simp [market_graph])

/- ### Theorems for the general relevancy loop -/

/-- C5: evaluation of the general graph at a failed relevancy check.
The conditional edge does loop back to search_web when relevant is
false, but the plain edge of general/graph.py line 236 makes
analyze_results a successor of check_relevancy as well, so
analyze_results runs without waiting for a relevant iteration; and the
retry query of search_web is the unchanged last message, identical
whatever the suggestions stored by the check. -/
theorem C5_relevancy_loop_divergence :
    "analyze_results" ∈ generalSuccessors (some false) "check_relevancy" ∧
    needs_new_search (some false) = "search_web" ∧
    searchWebQuery ⟨["q"], ["refine the keywords"]⟩
      = searchWebQuery ⟨["q"], []⟩ := by
  refine ⟨?_, ?_, ?_⟩ <;> decide

/- ### Theorems for the dispatch router -/

/-- C6: the dispatch route always lands inside the closed taxonomy, and
a backend reply matching no label deterministically routes to the
general label. -/
theorem C6_dispatch_fallback (reply : String) :
    dispatchRoute reply ∈ dispatchTaxonomy ∧
    (reply ∉ dispatchTaxonomy → dispatchRoute reply = "general_question") := by
  by_cases h : reply ∈ dispatchTaxonomy
  · exact ⟨by rw [dispatchRoute, if_pos h]; exact h,
      fun hn => absurd h hn⟩
  · exact ⟨by rw [dispatchRoute, if_neg h]; decide,
      fun _ => by rw [dispatchRoute, if_neg h]⟩

/-- C6 witness: a free-text reply outside the taxonomy routes to the
general label. -/
theorem C6_dispatch_fallback_witness :
    dispatchRoute "the question is about the weather" = "general_question" :=
  (C6_dispatch_fallback "the question is about the weather").2 (by decide)

/- ### Theorems for malformed structured replies -/

/-- C7 counterexample: a malformed backend reply is not converted into a
state contribution by check_relevancy or check_research_quality; both
nodes surface the parse failure as an error escaping the node. -/
theorem C7_malformed_reply_escapes :
    check_relevancy none = Except.error NodeError.jsonDecodeError ∧
    check_research_quality none = Except.error NodeError.jsonDecodeError :=
  ⟨rfl, rfl⟩

/-- C7 amended: only analyze_search_results guards its parse, returning
a fallback contribution carrying the raw reply; check_relevancy and
check_research_quality parse without a handler, so a malformed reply
propagates out of those nodes as a hard failure while a well-formed one
becomes a state contribution. -/
theorem C7_parse_boundary_policy (raw : String) (e : RelevancyEval)
    (q : QualityEval) (r : AnalysisResult) :
    analyze_search_results none raw = Except.ok (fallbackAnalysis raw) ∧
    (fallbackAnalysis raw).analysis_summary = raw ∧
    analyze_search_results (some r) raw = Except.ok r ∧
    check_relevancy none = Except.error NodeError.jsonDecodeError ∧
    check_relevancy (some e) = Except.ok e ∧
    check_research_quality none = Except.error NodeError.jsonDecodeError ∧
    check_research_quality (some q) = Except.ok q :=
  ⟨rfl, rfl, rfl, rfl, rfl, rfl, rfl⟩

/- ### Theorems for the sub-pipeline boundary -/

/-- C8: the boundary wrappers return a mapping whose only present key is
messages; every pipeline-internal field is absent from the update, for
every inner-graph invoke function and every input message state. -/
theorem C8_boundary_only_messages {α π : Type}
    (invokeFin : FinState α → FinState α)
    (invokeGen : GenState α → GenState α) (messages : List α) :
    (let uF : BoundaryUpdate (List α) π :=
      handle_financial_question invokeFin messages
     uF.messages.isSome = true ∧
     uF.stock_data = none ∧ uF.market_sentiment = none ∧
     uF.technical_analysis = none ∧ uF.price_targets = none ∧
     uF.web_results = none ∧ uF.wiki_results = none ∧
     uF.context = none ∧ uF.analysis = none) ∧
    (let uG : BoundaryUpdate (List α) π :=
      handle_general_question invokeGen messages
     uG.messages.isSome = true ∧
     uG.stock_data = none ∧ uG.market_sentiment = none ∧
     uG.technical_analysis = none ∧ uG.price_targets = none ∧
     uG.web_results = none ∧ uG.wiki_results = none ∧
     uG.context = none ∧ uG.analysis = none) :=
  ⟨⟨rfl, rfl, rfl, rfl, rfl, rfl, rfl, rfl, rfl⟩,
   ⟨rfl, rfl, rfl, rfl, rfl, rfl, rfl, rfl, rfl⟩⟩

/- ### Theorems for interview message routing -/

/-- Characterization of route_messages on histories of length at least
two: save_interview when the expert count reached the turn limit or the
second-to-last message carries the termination phrase, ask_question
otherwise. -/
lemma route_messages_spec (messages : List Msg) (max_num_turns : Option Nat)
    (h : 2 ≤ messages.length) :
    route_messages messages max_num_turns =
      some (if max_num_turns.getD 2 ≤ expertCount messages ∨
          containsSubstr
            (messages.get ⟨messages.length - 2, by omega⟩).content
            thanksPhrase = true
        then "save_interview" else "ask_question") := by
  by_cases hc : max_num_turns.getD 2 ≤ expertCount messages
  · rw [route_messages]
    simp only [ge_iff_le, if_pos hc]
    rw [if_pos (Or.inl hc)]
  · rw [route_messages]
    simp only [ge_iff_le, if_neg hc, dif_pos h]
    by_cases hp : containsSubstr
        (messages.get ⟨messages.length - 2, by omega⟩).content
        thanksPhrase = true
    · rw [if_pos hp, if_pos (Or.inr hp)]
    · rw [if_neg hp, if_neg (by push_neg; exact ⟨by omega, hp⟩)]

/-- One question-answer turn adds exactly one expert-named AIMessage. -/
lemma expertCount_qaStep (qgen agen : List Msg → String) (msgs : List Msg) :
    expertCount (qaStep qgen agen msgs) = expertCount msgs + 1 := by
  simp [expertCount, qaStep, List.filter_append]

/-- Unfolding of one iteration of the interview cycle. -/
lemma qaLoop_succ (qgen agen : List Msg → String) (maxT : Option Nat)
    (n : Nat) (msgs : List Msg) :
    qaLoop qgen agen maxT (n + 1) msgs =
      match route_messages (qaStep qgen agen msgs) maxT with
      | some s =>
          if s = "ask_question" then
            1 + qaLoop qgen agen maxT n (qaStep qgen agen msgs)
          else 1
      | none => 1 := rfl

/-- The answer node executes at most `max (turn limit - expert count) 1`
times along the interview cycle. -/
lemma qaLoop_le (qgen agen : List Msg → String) (maxT : Option Nat) :
    ∀ fuel msgs, qaLoop qgen agen maxT fuel msgs ≤
      max (maxT.getD 2 - expertCount msgs) 1 := by
  intro fuel
  induction fuel with
  | zero =>
      intro msgs
      simp [qaLoop]
  | succ n ih =>
      intro msgs
      have hlen : 2 ≤ (qaStep qgen agen msgs).length := by
        simp [qaStep]
      have hcount := expertCount_qaStep qgen agen msgs
      have hspec := route_messages_spec (qaStep qgen agen msgs) maxT hlen
      by_cases hcond : maxT.getD 2 ≤ expertCount (qaStep qgen agen msgs) ∨
          containsSubstr
            ((qaStep qgen agen msgs).get
              ⟨(qaStep qgen agen msgs).length - 2, by omega⟩).content
            thanksPhrase = true
      · have hstep : qaLoop qgen agen maxT (n + 1) msgs = 1 := by
          rw [qaLoop_succ, hspec, if_pos hcond]
          rfl
        rw [hstep]
        exact le_max_right _ 1
      · have hlt : expertCount msgs + 1 < maxT.getD 2 := by
          push_neg at hcond
          have := hcond.1
          omega
        have hstep : qaLoop qgen agen maxT (n + 1) msgs
            = 1 + qaLoop qgen agen maxT n (qaStep qgen agen msgs) := by
          rw [qaLoop_succ, hspec, if_neg hcond]
          rfl
        rw [hstep]
        have hrec := ih (qaStep qgen agen msgs)
        rw [hcount] at hrec
        have h1 : max (maxT.getD 2 - (expertCount msgs + 1)) 1
            = maxT.getD 2 - (expertCount msgs + 1) :=
          Nat.max_eq_left (by omega)
        rw [h1] at hrec
        have h2 : 1 + (maxT.getD 2 - (expertCount msgs + 1))
            = maxT.getD 2 - expertCount msgs := by omega
        calc 1 + qaLoop qgen agen maxT n (qaStep qgen agen msgs)
            ≤ 1 + (maxT.getD 2 - (expertCount msgs + 1)) := by omega
          _ = maxT.getD 2 - expertCount msgs := h2
          _ ≤ max (maxT.getD 2 - expertCount msgs) 1 := le_max_left _ _

/-- C9 counterexample: with max_num_turns set to 0 the interview cycle
still executes the answer node once, because the graph reaches the
answer node before route_messages first runs; so the at most
max_num_turns bound fails as stated. -/
theorem C9_zero_turns_counterexample :
    qaLoop (fun _ => "q") (fun _ => "a") (some 0) 5 [] = 1 ∧
    ¬ (qaLoop (fun _ => "q") (fun _ => "a") (some 0) 5 [] ≤ 0) := by
  decide

/-- C9 amended: on histories of length at least two, route_messages
returns save_interview exactly when the number of expert-named
AIMessages reached max_num_turns (default 2 when absent) or the
second-to-last message contains the termination phrase, and returns
ask_question in every other case; consequently, from a history with no
expert answers, the answer node executes at most
`max max_num_turns 1` times per run (at most max_num_turns whenever
max_num_turns is at least 1). -/
theorem C9_route_messages_and_turn_bound :
    (∀ (messages : List Msg) (maxT : Option Nat)
        (h : 2 ≤ messages.length),
      route_messages messages maxT = some "save_interview" ↔
        (maxT.getD 2 ≤ expertCount messages ∨
         containsSubstr
           (messages.get ⟨messages.length - 2, by omega⟩).content
           thanksPhrase = true)) ∧
    (∀ (messages : List Msg) (maxT : Option Nat), 2 ≤ messages.length →
      route_messages messages maxT = some "save_interview" ∨
      route_messages messages maxT = some "ask_question") ∧
    (∀ (qgen agen : List Msg → String) (maxT : Option Nat)
        (fuel : Nat) (msgs : List Msg), expertCount msgs = 0 →
      qaLoop qgen agen maxT fuel msgs ≤ max (maxT.getD 2) 1) := by
  refine ⟨?_, ?_, ?_⟩
  · intro messages maxT h
    rw [route_messages_spec messages maxT h]
    by_cases hcond : maxT.getD 2 ≤ expertCount messages ∨
        containsSubstr
          (messages.get ⟨messages.length - 2, by omega⟩).content
          thanksPhrase = true
    · rw [if_pos hcond]
      exact iff_of_true rfl hcond
    · rw [if_neg hcond]
      exact iff_of_false (by decide) hcond
  · intro messages maxT h
    rw [route_messages_spec messages maxT h]
    by_cases hcond : maxT.getD 2 ≤ expertCount messages ∨
        containsSubstr
          (messages.get ⟨messages.length - 2, by omega⟩).content
          thanksPhrase = true
    · left; rw [if_pos hcond]
    · right; rw [if_neg hcond]
  · intro qgen agen maxT fuel msgs h0
    have := qaLoop_le qgen agen maxT fuel msgs
    rw [h0, Nat.sub_zero] at this
    exact this

/-- C9 witness: concrete evaluations of the routing characterization and
the turn bound. -/
theorem C9_route_messages_and_turn_bound_witness :
    route_messages [(⟨true, none, "q"⟩ : Msg), ⟨true, some "expert", "a"⟩]
      (some 1) = some "save_interview" ∧
    qaLoop (fun _ => "q") (fun _ => "a") (some 2) 5 [] ≤ max 2 1 :=
  ⟨(C9_route_messages_and_turn_bound.1
      [⟨true, none, "q"⟩, ⟨true, some "expert", "a"⟩] (some 1)
      (by decide)).mpr (Or.inl (by decide)),
   C9_route_messages_and_turn_bound.2.2 (fun _ => "q") (fun _ => "a")
      (some 2) 5 [] (by decide)⟩

end Alkatto
